import Mathlib

/-!
Verification of the Casa-praia back-office core (`src/app.py`): the payment
schedule builder `save_payments_from_form`, the helpers `payment_summary` /
`br_currency` / `br_date`, the contract renderer `render_contract_text`, and
the signature-marker cursor logic of `save_contract_pdf`.

The Python code is shallowly embedded over `List Char` / `String`, with
machine floats modelled by `ℚ`.  The numeric model covers finite decimal
literals (optional sign, decimal point, exponent); the Python literals
`nan` / `inf` and digit-group underscores are outside the model.  Dates are
triples of naturals validated the way `datetime.strptime(s, "%Y-%m-%d")`
validates them.
-/

namespace CasaPraia

/-! ### Python string primitives -/

/-- The whitespace characters stripped by Python's `str.strip` (ASCII part). -/
def isPySpace (c : Char) : Bool :=
  c = ' ' || c = '\t' || c = '\n' || c = '\r' || c = '\x0b' || c = '\x0c'

/-- Left part of `str.strip`. -/
def trimLeft (l : List Char) : List Char := l.dropWhile isPySpace

/-- Right part of `str.strip`. -/
def trimRight (l : List Char) : List Char := (l.reverse.dropWhile isPySpace).reverse

/-- Python `str.strip()` on a character list. -/
def pyStripL (l : List Char) : List Char := trimRight (trimLeft l)

/-- Python `str.strip()`. -/
def pyStrip (s : String) : String := ⟨pyStripL s.data⟩

/-- Python `s.replace(",", ".")` (single-character replacement is a map). -/
def commaToDot (s : String) : String :=
  ⟨s.data.map (fun c => if c = ',' then '.' else c)⟩

/-- Decimal value of a digit string (digits already checked elsewhere). -/
def digitsVal (l : List Char) : Nat :=
  l.foldl (fun a c => 10 * a + (c.toNat - 48)) 0

/-! ### Python `int(...)`: optional sign followed by digits. -/

def parseNatL (l : List Char) : Option Nat :=
  if l ≠ [] ∧ l.all Char.isDigit then some (digitsVal l) else none

def parseIntL : List Char → Option Int
  | '+' :: t => (parseNatL t).map Int.ofNat
  | '-' :: t => (parseNatL t).map (fun n => -(n : Int))
  | t => (parseNatL t).map Int.ofNat

def parseInt (s : String) : Option Int := parseIntL s.data

/-! ### Python `float(...)` on finite decimal literals. -/

/-- `digits [. digits?] | . digits` — the mantissa digits of a float
literal, with the length of the fractional part. -/
def mantissaParts (l : List Char) : Option (Nat × Nat) :=
  match l.splitOn '.' with
  | [ds] => if ds ≠ [] ∧ ds.all Char.isDigit then some (digitsVal ds, 0) else none
  | [a, b] =>
    if (a ++ b) ≠ [] ∧ a.all Char.isDigit ∧ b.all Char.isDigit then
      some (digitsVal (a ++ b), b.length)
    else none
  | _ => none

/-- Exponent part after `e`/`E`: optional sign, then digits. -/
def parseExp : List Char → Option Int
  | '+' :: t => (parseNatL t).map Int.ofNat
  | '-' :: t => (parseNatL t).map (fun n => -(n : Int))
  | t => (parseNatL t).map Int.ofNat

/-- `±D·10^E` as a rational (built with `mkRat` so that concrete values
reduce in the kernel). -/
def floatVal (neg : Bool) (D : Nat) (E : Int) : ℚ :=
  let n : Int := if neg then -(D : Int) else (D : Int)
  if 0 ≤ E then mkRat (n * Int.ofNat (10 ^ E.toNat)) 1
  else mkRat n (10 ^ (-E).toNat)

def parseFloatCore (neg : Bool) (l : List Char) : Option ℚ :=
  match l.splitOnP (fun c => c = 'e' || c = 'E') with
  | [m] => (mantissaParts m).map (fun p => floatVal neg p.1 (-(p.2 : Int)))
  | [m, e] =>
    match mantissaParts m, parseExp e with
    | some p, some z => some (floatVal neg p.1 (z - (p.2 : Int)))
    | _, _ => none
  | _ => none

def parseFloatL : List Char → Option ℚ
  | '+' :: t => parseFloatCore false t
  | '-' :: t => parseFloatCore true t
  | t => parseFloatCore false t

/-- Model of Python `float(s)` for finite decimal literals. -/
def parseFloat (s : String) : Option ℚ := parseFloatL s.data

/-! ### Dates, as validated by `datetime.strptime(s, "%Y-%m-%d")`. -/

structure Date where
  y : Nat
  m : Nat
  d : Nat
deriving DecidableEq, Repr

def isLeap (y : Nat) : Bool := (y % 4 = 0 && y % 100 ≠ 0) || y % 400 = 0

def daysInMonth (y m : Nat) : Nat :=
  if m = 2 then (if isLeap y then 29 else 28)
  else if m = 4 ∨ m = 6 ∨ m = 9 ∨ m = 11 then 30
  else 31

/-- `strptime "%Y-%m-%d"`: exactly 4 year digits, 1–2 month and day digits,
then `datetime`'s range validation (month 1–12, day 1–days-in-month, year ≥ 1). -/
def parseDate (s : String) : Option Date :=
  match s.data.splitOn '-' with
  | [ys, ms, ds] =>
    if ys.length = 4 ∧ ys.all Char.isDigit ∧
       (ms.length = 1 ∨ ms.length = 2) ∧ ms.all Char.isDigit ∧
       (ds.length = 1 ∨ ds.length = 2) ∧ ds.all Char.isDigit then
      let y := digitsVal ys
      let m := digitsVal ms
      let d := digitsVal ds
      if 1 ≤ y ∧ 1 ≤ m ∧ m ≤ 12 ∧ 1 ≤ d ∧ d ≤ daysInMonth y m then
        some ⟨y, m, d⟩
      else none
    else none
  | _ => none

/-! ### Data model (`class Guest`, `class Booking`, `class Payment`, `class Setting`) -/

/-- A row of the `payment` table (`class Payment`).  `status` defaults to
`"pendente"` and `paid_date` to NULL at the ORM level; the embedding always
passes them explicitly. -/
structure Payment where
  booking_id : Nat
  due_date : Date
  amount : ℚ
  status : String
  paid_date : Option Date
  note : String
deriving DecidableEq, Repr

/-- A row of the `guest` table. -/
structure GuestRow where
  id : Nat
  name : String
  phone : Option String
  email : Option String
  note : Option String
  cpf : Option String
  rg : Option String
  address : Option String
  companions : Option String
deriving DecidableEq, Repr

/-- A row of the `booking` table. -/
structure BookingRow where
  id : Nat
  guest_id : Nat
  check_in : Date
  check_out : Date
  price_total : Option ℚ
  status : String
  payment_method : Option String
  note : Option String
  deposit_amount : Option ℚ
  installments_count : Option Int
  installment_value : Option ℚ
  installments_due : Option String
deriving DecidableEq, Repr

/-- The database state touched by the subsystem. -/
structure DB where
  guests : List GuestRow
  bookings : List BookingRow
  payments : List Payment
  settings : List (String × String)
deriving DecidableEq, Repr

/-- Raw request form data: `request.form.get k` is `none` for an absent key. -/
abbrev Form := List (String × String)

def formGet (f : Form) (k : String) : Option String :=
  (f.find? (fun p => p.1 == k)).map (fun p => p.2)

/-! ### `save_payments_from_form` (app.py lines 123–185) -/

/-- `(request.form.get("deposit_amount") or "").replace(",", ".").strip()` -/
def depAmountStr (form : Form) : String :=
  pyStrip (commaToDot ((formGet form "deposit_amount").getD ""))

/-- `(request.form.get("deposit_date") or "").strip()` -/
def depDateStr (form : Form) : String :=
  pyStrip ((formGet form "deposit_date").getD "")

/-- The deposit entry batch: `float(...)` with `ValueError ↦ 0`,
`strptime` with `ValueError ↦ None`, then `if dep_amount and dep_date`. -/
def depositEntries (bid : Nat) (form : Form) : List Payment :=
  let amt : ℚ :=
    if depAmountStr form = "" then 0 else (parseFloat (depAmountStr form)).getD 0
  let dd : Option Date :=
    if depDateStr form = "" then none else parseDate (depDateStr form)
  match dd with
  | some d =>
    if amt ≠ 0 then
      [⟨bid, d, amt, "pago", some d, "Sinal / depósito inicial"⟩]
    else []
  | none => []

/-- `(request.form.get("installments_count") or "").strip()` -/
def countStr (form : Form) : String :=
  pyStrip ((formGet form "installments_count").getD "")

/-- `int(count_str)` with `ValueError ↦ 0`. -/
def nVal (form : Form) : Int := (parseInt (countStr form)).getD 0

def dueStr (form : Form) (i : Nat) : String :=
  pyStrip ((formGet form ("payment_due_" ++ toString i)).getD "")

def amtStr (form : Form) (i : Nat) : String :=
  pyStrip (commaToDot ((formGet form ("payment_amount_" ++ toString i)).getD ""))

def noteStr (form : Form) (i : Nat) : String :=
  pyStrip ((formGet form ("payment_note_" ++ toString i)).getD "")

/-- One iteration of the `for i in range(1, n + 1)` loop: `continue` on a
missing or unparseable due date / amount, otherwise a pending entry. -/
def entryOfIndex (bid : Nat) (form : Form) (i : Nat) : Option Payment :=
  if dueStr form i = "" ∨ amtStr form i = "" then none
  else
    match parseDate (dueStr form i), parseFloat (amtStr form i) with
    | some d, some a => some ⟨bid, d, a, "pendente", none, noteStr form i⟩
    | _, _ => none

/-- The installment batch (`if n <= 0: return`, then the loop). -/
def installmentEntries (bid : Nat) (form : Form) : List Payment :=
  if nVal form ≤ 0 then []
  else (List.range' 1 (nVal form).toNat).filterMap (entryOfIndex bid form)

/-- All entries inserted by one run of `save_payments_from_form`. -/
def newLedger (bid : Nat) (form : Form) : List Payment :=
  depositEntries bid form ++ installmentEntries bid form

/-- `save_payments_from_form(booking)`: delete every `Payment` of this
booking, then insert the deposit entry and the installment entries. -/
def save_payments_from_form (bid : Nat) (form : Form) (db : DB) : DB :=
  ⟨db.guests, db.bookings,
   db.payments.filter (fun p => p.booking_id != bid) ++ newLedger bid form,
   db.settings⟩

/-- The ledger of one booking, as `booking.payments` reads it. -/
def bookingPayments (db : DB) (bid : Nat) : List Payment :=
  db.payments.filter (fun p => p.booking_id == bid)

/-! ### Formatting helpers (`br_date`, `br_currency`, `data_por_extenso`) -/

def pad2 (n : Nat) : String := if n < 10 then "0" ++ toString n else toString n

/-- `d.strftime("%d/%m/%Y")`. -/
def br_date (d : Date) : String := pad2 d.d ++ "/" ++ pad2 d.m ++ "/" ++ toString d.y

/-- Insert a `.` after every three digits, working on reversed digits. -/
def group3 : List Char → List Char
  | d1 :: d2 :: d3 :: d4 :: t => d1 :: d2 :: d3 :: '.' :: group3 (d4 :: t)
  | l => l

def thousandsBR (n : Nat) : String := ⟨(group3 (Nat.toDigits 10 n).reverse).reverse⟩

/-- `⌊|v|·100 + 1/2⌋` computed on numerator and denominator with `Nat`
arithmetic only, so that concrete values reduce in the kernel. -/
def centsOf (v : ℚ) : Nat := (v.num.natAbs * 200 + v.den) / (2 * v.den)

/-- `f"R$ {v:,.2f}"` followed by the `,`/`.` swap.  Rounding of the binary
float to two decimals is modelled by rounding the rational half-up. -/
def br_currency : Option ℚ → String
  | none => "-"
  | some v =>
    let cents : Nat := centsOf v
    "R$ " ++ (if v.num < 0 then "-" else "") ++
      thousandsBR (cents / 100) ++ "," ++ pad2 (cents % 100)

def meses : List String :=
  ["janeiro", "fevereiro", "março", "abril", "maio", "junho",
   "julho", "agosto", "setembro", "outubro", "novembro", "dezembro"]

def data_por_extenso (d : Date) : String :=
  toString d.d ++ " de " ++ (meses.getD (d.m - 1) "") ++ " de " ++ toString d.y

/-- Python `str.capitalize()`. -/
def pyCapitalize (s : String) : String :=
  match s.data with
  | [] => ""
  | c :: t => ⟨c.toUpper :: t.map Char.toLower⟩

/-! ### `payment_summary` (app.py lines 249–257) -/

/-- Truthiness of a nullable float column (`None` and `0.0` are falsy). -/
def optQTruthy : Option ℚ → Bool
  | none => false
  | some v => v != 0

/-- Truthiness of a nullable integer column. -/
def optITruthy : Option Int → Bool
  | none => false
  | some v => v != 0

/-- Truthiness of a nullable text column (`None` and `""` are falsy). -/
def optSTruthy : Option String → Bool
  | none => false
  | some s => s != ""

def payment_summary (b : BookingRow) : String :=
  let parts : List String :=
    (if optQTruthy b.deposit_amount then
       ["Sinal de " ++ br_currency b.deposit_amount] else []) ++
    (if optITruthy b.installments_count && optQTruthy b.installment_value then
       [toString (b.installments_count.getD 0) ++ " parcelas de " ++
          br_currency b.installment_value] else [])
  let text := if parts.isEmpty then "-" else " e ".intercalate parts
  if optSTruthy b.installments_due then
    text ++ ", com vencimentos em " ++ b.installments_due.getD ""
  else text

/-! ### Companions resolution (app.py lines 271–272) -/

/-- Python `s.replace("\r\n", "\n")` (left-to-right, non-overlapping). -/
def replaceCRLF : List Char → List Char
  | [] => []
  | [c] => [c]
  | c :: d :: t =>
    if c = '\r' ∧ d = '\n' then '\n' :: replaceCRLF t
    else c :: replaceCRLF (d :: t)

/-- Python `s.replace("\r", "\n")`. -/
def mapCR (l : List Char) : List Char := l.map (fun c => if c = '\r' then '\n' else c)

/-- Python `s.split("\n")`. -/
def splitNL : List Char → List (List Char)
  | [] => [[]]
  | c :: t =>
    if c = '\n' then [] :: splitNL t
    else (c :: (splitNL t).headI) :: (splitNL t).tail

/-- Splitting at every `\r\n`, `\r` or `\n` — the universal-newline line
structure of a text, used to state the specification side. -/
def splitLines : List Char → List (List Char)
  | [] => [[]]
  | [c] => if c = '\r' ∨ c = '\n' then [[], []] else [[c]]
  | c :: d :: t =>
    if c = '\r' ∧ d = '\n' then [] :: splitLines t
    else if c = '\r' ∨ c = '\n' then [] :: splitLines (d :: t)
    else (c :: (splitLines (d :: t)).headI) :: (splitLines (d :: t)).tail

/-- Trimmed non-empty lines of a text. -/
def trimmedLines (l : List Char) : List (List Char) :=
  ((splitLines l).map pyStripL).filter (fun s => !s.isEmpty)

/-- The code pipeline:
`[s.strip() for s in acomp.split("\n") if s.strip()]` where
`acomp = (companions or "").strip().replace("\r\n", "\n").replace("\r", "\n")`. -/
def companionParts (l : List Char) : List (List Char) :=
  ((splitNL (mapCR (replaceCRLF (pyStripL l)))).map pyStripL).filter
    (fun s => !s.isEmpty)

/-- `", ".join([...]) or "-"`. -/
def acompLineL (l : List Char) : List Char :=
  let joined := List.intercalate ", ".data (companionParts l)
  if joined.isEmpty then "-".data else joined

/-- The resolved `acompanhantes` field of `render_contract_text`. -/
def acompLine (o : Option String) : String := ⟨acompLineL (o.getD "").data⟩

/-- The specification's wording: the ", "-joined sequence of the trimmed
non-empty lines of the input, in order, or "-" if none remain. -/
def specCompanionLine (o : Option String) : String :=
  let parts := trimmedLines (o.getD "").data
  if parts.isEmpty then "-" else ⟨List.intercalate ", ".data parts⟩

/-! ### `str.format` and `render_contract_text` (app.py lines 268–311) -/

/-- How `tpl.format(**fields)` can fail: a missing keyword field
(`KeyError`), a malformed format string (`ValueError`), or a positional /
auto-numbered field with no positional arguments (`IndexError`). -/
inductive FmtError where
  | keyError (k : String)
  | valueError
  | indexError
deriving DecidableEq, Repr

def lookupField (fields : List (String × String)) (k : String) : Option String :=
  (fields.find? (fun p => p.1 == k)).map (fun p => p.2)

/-- The field name of a replacement field: the part before any `.`, `[`,
conversion `!` or format spec `:`. -/
def fieldKey (inner : List Char) : String :=
  ⟨inner.takeWhile (fun c => !(c = '.' || c = '[' || c = '!' || c = ':'))⟩

/-- Scanner state for `str.format`: literal text, just after a lone `{`,
just after a lone `}`, or inside a replacement field (characters of the
field accumulated in reverse). -/
inductive FmtMode where
  | text
  | afterLB
  | afterRB
  | field (acc : List Char)
deriving DecidableEq, Repr

/-- Resolving a completed replacement field `inner`: an auto-numbered or
positional field has no positional arguments (`IndexError`), a `{` inside
the field is malformed, otherwise look the keyword up. -/
def resolveField (fields : List (String × String)) (inner : List Char) :
    Except FmtError (List Char) :=
  if inner.contains '{' then .error .valueError
  else
    let key := fieldKey inner
    if key.data.all Char.isDigit then .error .indexError
    else
      match lookupField fields key with
      | some v => .ok v.data
      | none => .error (.keyError key)

/-- `tpl.format(**fields)` with keyword arguments only, one character at a
time.  Conversions and format specs are accepted but applied as the
identity; nested braces inside a format spec are rejected as `valueError`
(a model restriction). -/
def pyFmt (fields : List (String × String)) :
    List Char → FmtMode → Except FmtError (List Char)
  | [], .text => .ok []
  | [], .afterLB => .error .valueError
  | [], .afterRB => .error .valueError
  | [], .field _ => .error .valueError
  | c :: t, .text =>
    if c = '{' then pyFmt fields t .afterLB
    else if c = '}' then pyFmt fields t .afterRB
    else (pyFmt fields t .text).map (fun r => c :: r)
  | c :: t, .afterLB =>
    if c = '{' then (pyFmt fields t .text).map (fun r => '{' :: r)
    else if c = '}' then
      match resolveField fields [] with
      | .ok v => (pyFmt fields t .text).map (fun r => v ++ r)
      | .error e => .error e
    else pyFmt fields t (.field [c])
  | c :: t, .afterRB =>
    if c = '}' then (pyFmt fields t .text).map (fun r => '}' :: r)
    else .error .valueError
  | c :: t, .field acc =>
    if c = '}' then
      match resolveField fields acc.reverse with
      | .ok v => (pyFmt fields t .text).map (fun r => v ++ r)
      | .error e => .error e
    else pyFmt fields t (.field (c :: acc))

def pyFormat (fields : List (String × String)) (tpl : String) :
    Except FmtError String :=
  (pyFmt fields tpl.data .text).map (fun l => ⟨l⟩)

/-- Python `pat in s`. -/
def containsSub (pat : List Char) : List Char → Bool
  | [] => pat.isEmpty
  | c :: t => pat.isPrefixOf (c :: t) || containsSub pat t

/-- `os.getenv` values and the settings store consumed by the renderer. -/
structure RenderEnv where
  contract_template : Option String
  locador_nome : Option String
  imovel : Option String
  pix_chave : Option String
  wifi_nome : Option String
  wifi_senha : Option String
  portaria_senha : Option String
  today : Date
deriving DecidableEq, Repr

/-- `b.payments.order_by(Payment.due_date.asc())`: a stable sort on the due
date. -/
def dueLeB (a b : Date) : Bool :=
  decide (a.y < b.y ∨ (a.y = b.y ∧ (a.m < b.m ∨ (a.m = b.m ∧ a.d ≤ b.d))))

def insertByDue (p : Payment) : List Payment → List Payment
  | [] => [p]
  | q :: t => if dueLeB p.due_date q.due_date then p :: q :: t
              else q :: insertByDue p t

def sortByDue : List Payment → List Payment
  | [] => []
  | p :: t => insertByDue p (sortByDue t)

/-- The `parcelas` breakdown: one line per ledger entry, due date ascending. -/
def parcelasText (pays : List Payment) : String :=
  let sorted := sortByDue pays
  if sorted.isEmpty then ""
  else
    "\n".intercalate <|
      sorted.enum.map (fun ip =>
        toString (ip.1 + 1) ++ "ª parcela: " ++ br_date ip.2.due_date ++
          " - " ++ br_currency (some ip.2.amount))

/-- `g.cpf or "-"` etc. -/
def orDash : Option String → String
  | none => "-"
  | some s => if s = "" then "-" else s

/-- The resolved placeholder mapping (`fields = dict(...)`). -/
def fieldsOf (env : RenderEnv) (g : GuestRow) (b : BookingRow)
    (pays : List Payment) : List (String × String) :=
  let pay := payment_summary b
  [("locador_nome", env.locador_nome.getD "Divalcir Tambalo"),
   ("nome", g.name),
   ("cpf", orDash g.cpf),
   ("rg", orDash g.rg),
   ("endereco", orDash g.address),
   ("acompanhantes", acompLine g.companions),
   ("imovel", env.imovel.getD "Casa de Praia — Bertioga"),
   ("check_in", br_date b.check_in),
   ("check_out", br_date b.check_out),
   ("valor", br_currency b.price_total),
   ("forma_pagamento", pyCapitalize (orDash b.payment_method)),
   ("pix_chave", env.pix_chave.getD "-"),
   ("wifi_nome", env.wifi_nome.getD "-"),
   ("wifi_senha", env.wifi_senha.getD "-"),
   ("portaria_senha", env.portaria_senha.getD "-"),
   ("pagamento", if pay ≠ "" ∧ pay ≠ "-" then "Pagamento: " ++ pay ++ "." else ""),
   ("pagamento_info", if pay ≠ "" ∧ pay ≠ "-" then pay else ""),
   ("parcelas", parcelasText pays),
   ("data_contrato", br_date env.today),
   ("data_contrato_extenso", data_por_extenso env.today),
   ("assinatura_locador", "\x7bassinatura_locador\x7d"),
   ("assinatura_locatario", "\x7bassinatura_locatario\x7d")]

/-- `tpl.format(**fields)` guarded by `except KeyError`: a missing key turns
into the inline diagnostic (`str(KeyError(k))` prints as `'k'`); any other
format failure propagates. -/
def renderBase (env : RenderEnv) (g : GuestRow) (b : BookingRow)
    (pays : List Payment) : Except FmtError String :=
  let tpl := env.contract_template.getD ""
  match pyFormat (fieldsOf env g b pays) tpl with
  | .ok s => .ok s
  | .error (.keyError k) =>
    .ok (tpl ++ "\n\n[Aviso: Placeholder ausente no sistema: \x7b\x7b \x27" ++
         k ++ "\x27 \x7d\x7d]")
  | .error e => .error e

/-- `render_contract_text(b)`: the formatted body, plus the trailing payment
paragraph when neither payment placeholder occurs in the template and the
summary is non-trivial. -/
def render_contract_text (env : RenderEnv) (g : GuestRow) (b : BookingRow)
    (pays : List Payment) : Except FmtError String :=
  let tpl := env.contract_template.getD ""
  let pay := payment_summary b
  (renderBase env g b pays).map (fun body =>
    if (containsSub "\x7bpagamento\x7d".data tpl.data = false ∧
        containsSub "\x7bpagamento_info\x7d".data tpl.data = false) ∧
       pay ≠ "" ∧ pay ≠ "-" then
      body ++ "\n\nPagamento: " ++ pay ++ "."
    else body)

/-! ### Signature-marker layout step of `save_contract_pdf`
(app.py lines 349–390).  Lengths are in centimetres (`reportlab` multiplies
by `cm` points; A4 is 21 × 29.7 cm), so the running cursor `y` starts at
`29.7 - 3` and the marker branch needs `3` plus a `2` bottom margin. -/

/-- Processing one line whose stripped text equals a signature marker:
returns the new cursor and whether `showPage` was triggered.  `hasImage`
tells whether the image artifact for this marker exists on disk. -/
def sigMarkerStep (y : ℚ) (hasImage isLocatario : Bool) : ℚ × Bool :=
  let needed : ℚ := 3
  let brk : Bool := y < needed + 2
  let y1 : ℚ := if brk then 297 / 10 - 3 else y
  let y2 : ℚ :=
    if hasImage then (if isLocatario then y1 - 12 / 10 else y1 - 1) else y1
  (y2, brk)

/-! ## Helper lemmas -/

theorem parseFloat_empty : parseFloat "" = none := rfl

theorem parseDate_empty : parseDate "" = none := rfl

theorem mem_depositEntries_booking_id {bid : Nat} {form : Form} {p : Payment}
    (h : p ∈ depositEntries bid form) : p.booking_id = bid := by
  simp only [depositEntries] at h
  repeat' split at h
  all_goals simp_all

theorem entryOfIndex_booking_id {bid : Nat} {form : Form} {i : Nat} {p : Payment}
    (h : entryOfIndex bid form i = some p) : p.booking_id = bid := by
  simp only [entryOfIndex] at h
  split at h
  · exact absurd h (by simp)
  · split at h
    · rw [Option.some_inj] at h
      rw [← h]
    · exact absurd h (by simp)

theorem mem_newLedger_booking_id {bid : Nat} {form : Form} {p : Payment}
    (h : p ∈ newLedger bid form) : p.booking_id = bid := by
  rw [newLedger, List.mem_append] at h
  rcases h with h | h
  · exact mem_depositEntries_booking_id h
  · rw [installmentEntries] at h
    split at h
    · exact absurd h (List.not_mem_nil p)
    · rw [List.mem_filterMap] at h
      obtain ⟨i, _, hi⟩ := h
      exact entryOfIndex_booking_id hi

theorem filter_beq_filter_bne (l : List Payment) (bid : Nat) :
    (l.filter (fun p => p.booking_id != bid)).filter
      (fun p => p.booking_id == bid) = [] := by
  induction l with
  | nil => rfl
  | cons p t ih =>
    by_cases h : p.booking_id = bid <;> simp [List.filter_cons, h, ih]

theorem bookingPayments_save (bid : Nat) (form : Form) (db : DB) :
    bookingPayments (save_payments_from_form bid form db) bid =
      newLedger bid form := by
  simp only [bookingPayments, save_payments_from_form, List.filter_append]
  rw [filter_beq_filter_bne, List.nil_append, List.filter_eq_self.mpr]
  intro p hp
  simp [mem_newLedger_booking_id hp]

/-! ## C1 -/

/-- C1: `save_payments_from_form` creates exactly one deposit ledger entry
iff the deposit amount field parses (comma accepted as decimal separator) to
a nonzero number and the deposit date field parses as a date; the entry is
due at the deposit date, carries the parsed amount, status `"pago"`,
paid-date equal to the deposit date and the deposit note.  If either field
is missing or unparseable, zero deposit entries are created (and the
function is total — no error). -/
theorem spec_c1_deposit_entry (bid : Nat) (form : Form) :
    (∀ a d, parseFloat (depAmountStr form) = some a → a ≠ 0 →
      parseDate (depDateStr form) = some d →
      depositEntries bid form =
        [⟨bid, d, a, "pago", some d, "Sinal / depósito inicial"⟩]) ∧
    ((parseFloat (depAmountStr form) = none ∨
      parseFloat (depAmountStr form) = some 0 ∨
      parseDate (depDateStr form) = none) →
      depositEntries bid form = []) := by
  constructor
  · intro a d hpf ha hpd
    have hne : depAmountStr form ≠ "" := by
      intro h
      rw [h, parseFloat_empty] at hpf
      exact Option.noConfusion hpf
    have hdne : depDateStr form ≠ "" := by
      intro h
      rw [h, parseDate_empty] at hpd
      exact Option.noConfusion hpd
    simp only [depositEntries, if_neg hne, if_neg hdne, hpf, hpd,
      Option.getD_some, if_pos ha]
  · intro h
    simp only [depositEntries]
    rcases h with h | h | h
    · by_cases hs : depAmountStr form = "" <;>
        simp only [hs, h, if_true, if_false, Option.getD_none, ite_self,
          reduceIte, ne_eq, not_true_eq_false] <;>
        split <;> simp
    · by_cases hs : depAmountStr form = "" <;>
        simp only [hs, h, if_true, if_false, Option.getD_some, reduceIte,
          ne_eq, not_true_eq_false] <;>
        split <;> simp
    · by_cases hs : depDateStr form = "" <;>
        simp [hs, h]

/-- C1 witness: a parsing deposit (`"100,50"`, `"2024-01-10"`) creates the
single paid entry; an unparseable amount creates none. -/
theorem spec_c1_deposit_entry_witness :
    depositEntries 7 [("deposit_amount", "100,50"), ("deposit_date", "2024-01-10")] =
      [⟨7, ⟨2024, 1, 10⟩, mkRat 201 2, "pago", some ⟨2024, 1, 10⟩,
        "Sinal / depósito inicial"⟩] ∧
    depositEntries 7 [("deposit_amount", "abc"), ("deposit_date", "2024-01-10")] =
      [] :=
  ⟨(spec_c1_deposit_entry 7 _).1 (mkRat 201 2) ⟨2024, 1, 10⟩ (by decide) (by decide)
      (by decide),
   (spec_c1_deposit_entry 7 _).2 (Or.inl (by decide))⟩

/-! ## C2 -/

/-- C2: for every index `i` in `1..n` (with `n` the parsed installment
count), a missing or unparseable due date or amount yields no entry for that
index, while any index with a parseable due date and amount yields a pending
entry with no paid-date that is in the resulting batch — the batch is never
rejected as a whole, and the loop body is total (no exception). -/
theorem spec_c2_installment_skip (bid : Nat) (form : Form) :
    ∀ i, 1 ≤ i → i ≤ (nVal form).toNat →
      ((parseDate (dueStr form i) = none ∨ parseFloat (amtStr form i) = none) →
        entryOfIndex bid form i = none) ∧
      (∀ d a, parseDate (dueStr form i) = some d →
        parseFloat (amtStr form i) = some a →
        entryOfIndex bid form i =
          some ⟨bid, d, a, "pendente", none, noteStr form i⟩ ∧
        (⟨bid, d, a, "pendente", none, noteStr form i⟩ : Payment) ∈
          installmentEntries bid form) := by
  intro i h1 hn
  constructor
  · intro h
    simp only [entryOfIndex]
    split
    · rfl
    · rcases h with h | h <;> (rw [h]; all_goals (split <;> simp_all))
  · intro d a hpd hpf
    have hdne : dueStr form i ≠ "" := by
      intro h
      rw [h, parseDate_empty] at hpd
      exact Option.noConfusion hpd
    have hane : amtStr form i ≠ "" := by
      intro h
      rw [h, parseFloat_empty] at hpf
      exact Option.noConfusion hpf
    have he : entryOfIndex bid form i =
        some ⟨bid, d, a, "pendente", none, noteStr form i⟩ := by
      simp only [entryOfIndex, hpd, hpf]
      rw [if_neg]
      simp [hdne, hane]
    refine ⟨he, ?_⟩
    have hpos : ¬ nVal form ≤ 0 := by
      intro hle
      have : (nVal form).toNat = 0 := Int.toNat_of_nonpos hle
      omega
    simp only [installmentEntries, if_neg hpos, List.mem_filterMap]
    exact ⟨i, by rw [List.mem_range'_1]; omega, he⟩

/-- C2 witness (the spec's end-to-end scenario): count 2, installment 1
parseable, installment 2 with a missing amount — index 2 yields nothing,
index 1 still yields its pending entry inside the batch. -/
theorem spec_c2_installment_skip_witness :
    entryOfIndex 9 [("installments_count", "2"), ("payment_due_1", "2024-02-01"),
        ("payment_amount_1", "750,00"), ("payment_due_2", "2024-03-01")] 2 = none ∧
    entryOfIndex 9 [("installments_count", "2"), ("payment_due_1", "2024-02-01"),
        ("payment_amount_1", "750,00"), ("payment_due_2", "2024-03-01")] 1 =
      some ⟨9, ⟨2024, 2, 1⟩, 750, "pendente", none, ""⟩ ∧
    (⟨9, ⟨2024, 2, 1⟩, 750, "pendente", none, ""⟩ : Payment) ∈
      installmentEntries 9 [("installments_count", "2"),
        ("payment_due_1", "2024-02-01"), ("payment_amount_1", "750,00"),
        ("payment_due_2", "2024-03-01")] := by
  refine ⟨(spec_c2_installment_skip 9 _ 2 (by decide) (by decide)).1
      (Or.inr (by decide)), ?_⟩
  have h := (spec_c2_installment_skip 9 [("installments_count", "2"),
    ("payment_due_1", "2024-02-01"), ("payment_amount_1", "750,00"),
    ("payment_due_2", "2024-03-01")] 1 (by decide) (by decide)).2
    ⟨2024, 2, 1⟩ 750 (by decide) (by decide)
  exact h

/-! ## C3 -/

/-- C3: rebuilding a booking's ledger twice with the same raw input yields,
after each run, booking ledgers with identical
(due date, amount, status, note) multisets (here even identical lists), and
the second rebuild first deletes every entry left by the first before
re-inserting. -/
theorem spec_c3_rebuild_idempotent (bid : Nat) (form : Form) (db : DB) :
    (Multiset.ofList ((bookingPayments (save_payments_from_form bid form db) bid).map
        (fun p => (p.due_date, p.amount, p.status, p.note))) =
      Multiset.ofList ((bookingPayments (save_payments_from_form bid form
          (save_payments_from_form bid form db)) bid).map
        (fun p => (p.due_date, p.amount, p.status, p.note)))) ∧
    (save_payments_from_form bid form (save_payments_from_form bid form db)).payments =
      ((save_payments_from_form bid form db).payments.filter
        (fun p => p.booking_id != bid)) ++ newLedger bid form := by
  refine ⟨?_, rfl⟩
  rw [bookingPayments_save, bookingPayments_save]

/-! ## C10 -/

/-- C10 (frame): one run of `save_payments_from_form` leaves every Guest,
Booking and Setting row unchanged, leaves the Payment rows of every other
booking unchanged, and inserts no Payment row for another booking. -/
theorem spec_c10_frame (bid : Nat) (form : Form) (db : DB) :
    (save_payments_from_form bid form db).guests = db.guests ∧
    (save_payments_from_form bid form db).bookings = db.bookings ∧
    (save_payments_from_form bid form db).settings = db.settings ∧
    (save_payments_from_form bid form db).payments.filter
        (fun p => p.booking_id != bid) =
      db.payments.filter (fun p => p.booking_id != bid) ∧
    ∀ p ∈ (save_payments_from_form bid form db).payments,
      p.booking_id ≠ bid → p ∈ db.payments := by
  refine ⟨rfl, rfl, rfl, ?_, ?_⟩
  · have hnl : (newLedger bid form).filter (fun p => p.booking_id != bid) = [] :=
      List.filter_eq_nil_iff.mpr (fun p hp => by simp [mem_newLedger_booking_id hp])
    have hff : (db.payments.filter (fun p => p.booking_id != bid)).filter
        (fun p => p.booking_id != bid) =
        db.payments.filter (fun p => p.booking_id != bid) := by
      rw [List.filter_filter]
      apply List.filter_congr
      intro p _
      simp
    simp only [save_payments_from_form, List.filter_append, hnl, hff,
      List.append_nil]
  · intro p hp hne
    simp only [save_payments_from_form, List.mem_append] at hp
    rcases hp with hp | hp
    · exact (List.mem_filter.mp hp).1
    · exact absurd (mem_newLedger_booking_id hp) hne

/-! ## C6 -/

/-- C6 counterexample: with a parseable due date and the amount field `"0"`,
`save_payments_from_form` inserts a ledger entry whose amount is `0` — not a
positive number — so the claimed invariant is false on the code. -/
theorem spec_c6_counterexample :
    newLedger 1 [("installments_count", "1"), ("payment_due_1", "2024-02-01"),
        ("payment_amount_1", "0")] =
      [⟨1, ⟨2024, 2, 1⟩, 0, "pendente", none, ""⟩] ∧
    ∃ p ∈ newLedger 1 [("installments_count", "1"),
        ("payment_due_1", "2024-02-01"), ("payment_amount_1", "0")],
      ¬ 0 < p.amount := by
  constructor
  · decide
  · refine ⟨⟨1, ⟨2024, 2, 1⟩, 0, "pendente", none, ""⟩, by decide, ?_⟩
    norm_num

/-- C6 amended: only the deposit entry is filtered on its amount, and only
for being zero (a negative deposit amount is still inserted); installment
entries are inserted for any parseable amount, including zero and negative
ones. -/
theorem spec_c6_amended_amounts :
    (∀ (bid : Nat) (form : Form) (p : Payment),
      p ∈ depositEntries bid form → p.amount ≠ 0) ∧
    (∀ (bid : Nat) (form : Form) (i : Nat) (d : Date) (a : ℚ),
      parseDate (dueStr form i) = some d → parseFloat (amtStr form i) = some a →
      entryOfIndex bid form i =
        some ⟨bid, d, a, "pendente", none, noteStr form i⟩) := by
  constructor
  · intro bid form p h
    simp only [depositEntries] at h
    repeat' split at h
    all_goals simp_all
  · intro bid form i d a hpd hpf
    have hdne : dueStr form i ≠ "" := by
      intro h
      rw [h, parseDate_empty] at hpd
      exact Option.noConfusion hpd
    have hane : amtStr form i ≠ "" := by
      intro h
      rw [h, parseFloat_empty] at hpf
      exact Option.noConfusion hpf
    simp only [entryOfIndex, hpd, hpf]
    rw [if_neg]
    simp [hdne, hane]

/-- C6 amended witness: a nonzero deposit entry keeps its amount, and an
installment with amount field `"-50"` is inserted with amount `-50`. -/
theorem spec_c6_amended_amounts_witness :
    (⟨7, ⟨2024, 1, 10⟩, mkRat 201 2, "pago", some ⟨2024, 1, 10⟩,
        "Sinal / depósito inicial"⟩ : Payment).amount ≠ 0 ∧
    entryOfIndex 1 [("installments_count", "1"), ("payment_due_1", "2024-02-01"),
        ("payment_amount_1", "-50")] 1 =
      some ⟨1, ⟨2024, 2, 1⟩, -(50 : ℚ), "pendente", none, ""⟩ := by
  constructor
  · exact spec_c6_amended_amounts.1 7
      [("deposit_amount", "100,50"), ("deposit_date", "2024-01-10")] _
      (by decide)
  · have h := spec_c6_amended_amounts.2 1
      [("installments_count", "1"), ("payment_due_1", "2024-02-01"),
        ("payment_amount_1", "-50")] 1 ⟨2024, 2, 1⟩ (floatVal true 50 0)
      (by decide) (by decide)
    rw [h]
    decide

/-! ## C7 -/

/-- C7 counterexample: a booking with no deposit amount and no
(count, value) pair but with a legacy free-text due-date field does not
resolve to `"-"` — the due-dates clause is appended to the dash. -/
theorem spec_c7_counterexample :
    optQTruthy (⟨3, 1, ⟨2024, 1, 1⟩, ⟨2024, 1, 5⟩, none, "pendente", none, none,
        none, none, none, some "março e abril"⟩ : BookingRow).deposit_amount
      = false ∧
    (optITruthy (⟨3, 1, ⟨2024, 1, 1⟩, ⟨2024, 1, 5⟩, none, "pendente", none, none,
        none, none, none, some "março e abril"⟩ : BookingRow).installments_count &&
     optQTruthy (⟨3, 1, ⟨2024, 1, 1⟩, ⟨2024, 1, 5⟩, none, "pendente", none, none,
        none, none, none, some "março e abril"⟩ : BookingRow).installment_value)
      = false ∧
    payment_summary ⟨3, 1, ⟨2024, 1, 1⟩, ⟨2024, 1, 5⟩, none, "pendente", none,
        none, none, none, none, some "março e abril"⟩ ≠ "-" := by
  refine ⟨rfl, rfl, ?_⟩
  decide

/-- C7 amended: with no deposit amount and no (count, value) pair,
`payment_summary` resolves to exactly `"-"` only when the legacy free-text
due-date field is also absent or empty; when that field is non-empty the
result is `"-"` with the due-dates clause appended. -/
theorem spec_c7_amended_summary (b : BookingRow)
    (h1 : optQTruthy b.deposit_amount = false)
    (h2 : (optITruthy b.installments_count && optQTruthy b.installment_value)
      = false) :
    (optSTruthy b.installments_due = false → payment_summary b = "-") ∧
    (∀ s, b.installments_due = some s → s ≠ "" →
      payment_summary b = "-, com vencimentos em " ++ s) := by
  constructor
  · intro h3
    simp [payment_summary, h1, h2, h3]
  · intro s hs hne
    have h3 : optSTruthy (some s) = true := by
      simp [optSTruthy, hne]
    simp [payment_summary, h1, h2, hs, h3]

/-- C7 amended witness: both branches at concrete bookings. -/
theorem spec_c7_amended_summary_witness :
    payment_summary ⟨3, 1, ⟨2024, 1, 1⟩, ⟨2024, 1, 5⟩, none, "pendente", none,
        none, none, none, none, none⟩ = "-" ∧
    payment_summary ⟨3, 1, ⟨2024, 1, 1⟩, ⟨2024, 1, 5⟩, none, "pendente", none,
        none, none, none, none, some "março e abril"⟩ =
      "-, com vencimentos em março e abril" :=
  ⟨(spec_c7_amended_summary ⟨3, 1, ⟨2024, 1, 1⟩, ⟨2024, 1, 5⟩, none, "pendente",
      none, none, none, none, none, none⟩ rfl rfl).1 rfl,
   (spec_c7_amended_summary ⟨3, 1, ⟨2024, 1, 1⟩, ⟨2024, 1, 5⟩, none, "pendente",
      none, none, none, none, none, some "março e abril"⟩ rfl rfl).2
     "março e abril" rfl (by decide)⟩

/-! ## C8 -/

/-- C8 counterexample: at cursor height `y = 4` cm (below the
`needed + 2 = 5` cm threshold), a signature marker with no image still
triggers a page break and moves the cursor to the top margin — it does not
consume zero vertical space there. -/
theorem spec_c8_counterexample :
    sigMarkerStep 4 false false = (297 / 10 - 3, true) ∧
    ((297 : ℚ) / 10 - 3 ≠ 4) := by
  constructor
  · norm_num [sigMarkerStep]
  · norm_num

/-- C8 amended: a signature marker with no image consumes zero vertical
space (cursor unchanged, no page break) only when at least 5 cm remain
above the bottom; when the cursor is below that threshold, the marker still
forces a page break and resets the cursor to the top margin, although
nothing is drawn. -/
theorem spec_c8_amended_marker (y : ℚ) (loc : Bool) :
    (5 ≤ y → sigMarkerStep y false loc = (y, false)) ∧
    (y < 5 → sigMarkerStep y false loc = (297 / 10 - 3, true)) := by
  constructor
  · intro h
    have hlt : ¬ y < 3 + 2 := by
      push_neg
      linarith
    simp [sigMarkerStep, hlt]
  · intro h
    have hlt : y < 3 + 2 := by linarith
    simp [sigMarkerStep, hlt]

/-- C8 amended witness: both branches at concrete cursor heights. -/
theorem spec_c8_amended_marker_witness :
    sigMarkerStep 10 false true = (10, false) ∧
    sigMarkerStep 4 false false = (297 / 10 - 3, true) :=
  ⟨(spec_c8_amended_marker 10 true).1 (by norm_num),
   (spec_c8_amended_marker 4 false).2 (by norm_num)⟩

/-! ## String helper lemmas for C4 / C5 -/

theorem length_pos_left {a : String} (b : String) (h : 0 < a.length) :
    0 < (a ++ b).length := by
  rw [String.length_append]
  omega

theorem length_pos_right (a : String) {b : String} (h : 0 < b.length) :
    0 < (a ++ b).length := by
  rw [String.length_append]
  omega

theorem ne_empty_of_length_pos {s : String} (h : 0 < s.length) : s ≠ "" := by
  intro he
  rw [he] at h
  simp at h

/-- `payment_summary` never returns the empty string (the Python truthiness
test `pay and ...` never fails on emptiness). -/
theorem payment_summary_ne_empty (b : BookingRow) : payment_summary b ≠ "" := by
  apply ne_empty_of_length_pos
  by_cases h1 : optQTruthy b.deposit_amount <;>
    by_cases h2 : optITruthy b.installments_count && optQTruthy b.installment_value <;>
    by_cases h3 : optSTruthy b.installments_due <;>
    simp only [payment_summary, h1, h2, h3, if_true, if_false,
      Bool.false_eq_true, List.append_nil, List.nil_append, List.cons_append,
      List.isEmpty_cons, List.isEmpty_nil, Bool.false_eq_true, if_neg,
      String.intercalate, String.intercalate.go]
  all_goals
    repeat' first
      | (apply length_pos_right _; decide)
      | apply length_pos_left
  all_goals decide

theorem containsSub_append_self (pat c : List Char) :
    containsSub pat (pat ++ c) = true := by
  cases pat with
  | nil =>
    cases c with
    | nil => rfl
    | cons x t => simp [containsSub]
  | cons p ps =>
    simp only [containsSub, Bool.or_eq_true]
    exact Or.inl (List.isPrefixOf_iff_prefix.mpr (List.prefix_append _ _))

theorem containsSub_append_left (pat x l : List Char)
    (h : containsSub pat l = true) : containsSub pat (x ++ l) = true := by
  induction x with
  | nil => simpa using h
  | cons c t ih => simp [containsSub, ih]

theorem containsSub_infix (pat a c : List Char) :
    containsSub pat (a ++ (pat ++ c)) = true :=
  containsSub_append_left pat a _ (containsSub_append_self pat c)

theorem data_ne_nil_of_length_pos {s : String} (h : 0 < s.length) :
    s.data ≠ [] :=
  List.ne_nil_of_length_pos h

/-! ## C5 -/

/-- C5: when the template contains neither payment placeholder and the
payment summary is non-trivial, the rendered text ends with the appended
trailing paragraph `"\n\nPagamento: <summary>."`; when the template contains
either placeholder, nothing is appended (the result is exactly the base
substitution result). -/
theorem spec_c5_payment_paragraph (env : RenderEnv) (g : GuestRow)
    (b : BookingRow) (pays : List Payment) :
    (containsSub "\x7bpagamento\x7d".data (env.contract_template.getD "").data
        = false →
     containsSub "\x7bpagamento_info\x7d".data
        (env.contract_template.getD "").data = false →
     payment_summary b ≠ "-" →
     ∀ body, render_contract_text env g b pays = .ok body →
       List.IsSuffix ("\n\nPagamento: " ++ payment_summary b ++ ".").data
         body.data) ∧
    ((containsSub "\x7bpagamento\x7d".data (env.contract_template.getD "").data
        = true ∨
      containsSub "\x7bpagamento_info\x7d".data
        (env.contract_template.getD "").data = true) →
     render_contract_text env g b pays = renderBase env g b pays) := by
  constructor
  · intro hc1 hc2 hpay body hbody
    simp only [render_contract_text] at hbody
    cases hrb : renderBase env g b pays with
    | error e =>
      rw [hrb] at hbody
      exact absurd hbody (by simp [Except.map])
    | ok s =>
      rw [hrb] at hbody
      simp only [Except.map] at hbody
      rw [if_pos ⟨⟨hc1, hc2⟩, payment_summary_ne_empty b, hpay⟩] at hbody
      have hb : body = s ++ "\n\nPagamento: " ++ payment_summary b ++ "." :=
        (Except.ok.injEq _ _).mp hbody.symm |>.symm ▸ rfl
      have hd : body.data =
          s.data ++ ("\n\nPagamento: " ++ payment_summary b ++ ".").data := by
        rw [hb]
        simp [String.data_append, List.append_assoc]
      rw [hd]
      exact List.suffix_append _ _
  · intro h
    simp only [render_contract_text]
    cases hrb : renderBase env g b pays with
    | error e => simp [Except.map]
    | ok s =>
      simp only [Except.map]
      rw [if_neg]
      rintro ⟨⟨hc1, hc2⟩, -, -⟩
      rcases h with h | h
      · rw [h] at hc1
        exact Bool.true_eq_false.mp hc1
      · rw [h] at hc2
        exact Bool.true_eq_false.mp hc2

/-- C5 witness: a placeholder-free template gets the trailing payment
paragraph; a template containing `\x7bpagamento\x7d` is returned exactly as
the base substitution. -/
theorem spec_c5_payment_paragraph_witness :
    List.IsSuffix
      ("\n\nPagamento: " ++ payment_summary ⟨1, 1, ⟨2024, 1, 10⟩, ⟨2024, 1, 15⟩,
          none, "confirmada", none, none, some 500, none, none, none⟩ ++ ".").data
      ("CONTRATO SIMPLES\n\nPagamento: Sinal de R$ 500,00.").data ∧
    render_contract_text
        ⟨some "X \x7bpagamento\x7d", none, none, none, none, none, none,
          ⟨2024, 5, 1⟩⟩
        ⟨1, "Ana", none, none, none, none, none, none, none⟩
        ⟨1, 1, ⟨2024, 1, 10⟩, ⟨2024, 1, 15⟩, none, "confirmada", none, none,
          some 500, none, none, none⟩ [] =
      renderBase
        ⟨some "X \x7bpagamento\x7d", none, none, none, none, none, none,
          ⟨2024, 5, 1⟩⟩
        ⟨1, "Ana", none, none, none, none, none, none, none⟩
        ⟨1, 1, ⟨2024, 1, 10⟩, ⟨2024, 1, 15⟩, none, "confirmada", none, none,
          some 500, none, none, none⟩ [] :=
  ⟨(spec_c5_payment_paragraph
      ⟨some "CONTRATO SIMPLES", none, none, none, none, none, none, ⟨2024, 5, 1⟩⟩
      ⟨1, "Ana", none, none, none, none, none, none, none⟩
      ⟨1, 1, ⟨2024, 1, 10⟩, ⟨2024, 1, 15⟩, none, "confirmada", none, none,
        some 500, none, none, none⟩ []).1 rfl rfl (by decide)
      "CONTRATO SIMPLES\n\nPagamento: Sinal de R$ 500,00." rfl,
   (spec_c5_payment_paragraph
      ⟨some "X \x7bpagamento\x7d", none, none, none, none, none, none,
        ⟨2024, 5, 1⟩⟩
      ⟨1, "Ana", none, none, none, none, none, none, none⟩
      ⟨1, 1, ⟨2024, 1, 10⟩, ⟨2024, 1, 15⟩, none, "confirmada", none, none,
        some 500, none, none, none⟩ []).2 (Or.inl rfl)⟩

/-! ## C4 -/

/-- C4 counterexample: the template `"\x7b"` (a single opening brace) is an
operator-editable template on which `tpl.format(**fields)` raises
`ValueError`, which the `except KeyError` handler does not catch — so
`render_contract_text` does raise to the caller, refuting the claim. -/
theorem spec_c4_counterexample :
    render_contract_text
        ⟨some "\x7b", none, none, none, none, none, none, ⟨2024, 5, 1⟩⟩
        ⟨1, "Ana", none, none, none, none, none, none, none⟩
        ⟨1, 1, ⟨2024, 1, 10⟩, ⟨2024, 1, 12⟩, none, "pendente", none, none, none,
          none, none, none⟩ [] =
      .error .valueError := rfl

/-- C4 amended: when substitution fails only with a missing placeholder key
(a `KeyError`), `render_contract_text` does not raise: it returns non-empty
text that starts with the original template followed by the diagnostic line
and contains the literal missing placeholder name.  (Templates malformed as
format strings — lone braces or positional fields — still raise.) -/
theorem spec_c4_amended_diagnostic (env : RenderEnv) (g : GuestRow)
    (b : BookingRow) (pays : List Payment) (k : String)
    (h : pyFormat (fieldsOf env g b pays) (env.contract_template.getD "") =
      .error (.keyError k)) :
    ∃ body, render_contract_text env g b pays = Except.ok body ∧
      body.data ≠ [] ∧
      List.IsPrefix ((env.contract_template.getD "") ++
        "\n\n[Aviso: Placeholder ausente no sistema: \x7b\x7b \x27" ++ k ++
        "\x27 \x7d\x7d]").data body.data ∧
      containsSub k.data body.data = true := by
  have hrb : renderBase env g b pays =
      .ok ((env.contract_template.getD "") ++
        "\n\n[Aviso: Placeholder ausente no sistema: \x7b\x7b \x27" ++ k ++
        "\x27 \x7d\x7d]") := by
    simp only [renderBase, h]
  have hpos : 0 < ((env.contract_template.getD "") ++
      "\n\n[Aviso: Placeholder ausente no sistema: \x7b\x7b \x27" ++ k ++
      "\x27 \x7d\x7d]").length := by
    apply length_pos_right
    decide
  have hrc : render_contract_text env g b pays =
      Except.ok (if (containsSub "\x7bpagamento\x7d".data
            (env.contract_template.getD "").data = false ∧
          containsSub "\x7bpagamento_info\x7d".data
            (env.contract_template.getD "").data = false) ∧
          payment_summary b ≠ "" ∧ payment_summary b ≠ "-" then
        ((env.contract_template.getD "") ++
          "\n\n[Aviso: Placeholder ausente no sistema: \x7b\x7b \x27" ++ k ++
          "\x27 \x7d\x7d]") ++ "\n\nPagamento: " ++ payment_summary b ++ "."
      else
        (env.contract_template.getD "") ++
          "\n\n[Aviso: Placeholder ausente no sistema: \x7b\x7b \x27" ++ k ++
          "\x27 \x7d\x7d]") := by
    unfold render_contract_text
    rw [hrb]
    rfl
  by_cases hcond : (containsSub "\x7bpagamento\x7d".data
        (env.contract_template.getD "").data = false ∧
      containsSub "\x7bpagamento_info\x7d".data
        (env.contract_template.getD "").data = false) ∧
      payment_summary b ≠ "" ∧ payment_summary b ≠ "-"
  · rw [if_pos hcond] at hrc
    refine ⟨_, hrc, ?_, ?_, ?_⟩
    · apply data_ne_nil_of_length_pos
      exact length_pos_left _ (length_pos_left _ (length_pos_left _ hpos))
    · simp only [String.data_append]
      exact ((List.prefix_append _ _).trans (List.prefix_append _ _)).trans
        (List.prefix_append _ _)
    · simp only [String.data_append, List.append_assoc]
      apply containsSub_append_left
      apply containsSub_append_left
      apply containsSub_append_self
  · rw [if_neg hcond] at hrc
    refine ⟨_, hrc, ?_, ?_, ?_⟩
    · exact data_ne_nil_of_length_pos hpos
    · exact List.prefix_rfl
    · simp only [String.data_append, List.append_assoc]
      apply containsSub_append_left
      apply containsSub_append_left
      apply containsSub_append_self

/-- C4 amended witness: a template referencing the unknown placeholder
`nome_completo` renders to the diagnostic text instead of raising. -/
theorem spec_c4_amended_diagnostic_witness :
    ∃ body, render_contract_text
        ⟨some "Oi \x7bnome_completo\x7d", none, none, none, none, none, none,
          ⟨2024, 5, 1⟩⟩
        ⟨1, "Ana", none, none, none, none, none, none, none⟩
        ⟨1, 1, ⟨2024, 1, 10⟩, ⟨2024, 1, 12⟩, none, "pendente", none, none, none,
          none, none, none⟩ [] = Except.ok body ∧
      body.data ≠ [] ∧
      List.IsPrefix (((⟨some "Oi \x7bnome_completo\x7d", none, none, none, none,
          none, none, ⟨2024, 5, 1⟩⟩ : RenderEnv).contract_template.getD "") ++
        "\n\n[Aviso: Placeholder ausente no sistema: \x7b\x7b \x27" ++
        "nome_completo" ++ "\x27 \x7d\x7d]").data body.data ∧
      containsSub "nome_completo".data body.data = true :=
  spec_c4_amended_diagnostic
    ⟨some "Oi \x7bnome_completo\x7d", none, none, none, none, none, none,
      ⟨2024, 5, 1⟩⟩
    ⟨1, "Ana", none, none, none, none, none, none, none⟩
    ⟨1, 1, ⟨2024, 1, 10⟩, ⟨2024, 1, 12⟩, none, "pendente", none, none, none,
      none, none, none⟩ [] "nome_completo" rfl

/-! ## C9 machinery: line splitting -/

theorem splitLines_crlf (t : List Char) :
    splitLines ('\r' :: '\n' :: t) = [] :: splitLines t := by
  simp [splitLines]

theorem splitLines_cr_cons (c : Char) (t : List Char) (h : c ≠ '\n') :
    splitLines ('\r' :: c :: t) = [] :: splitLines (c :: t) := by
  simp [splitLines, h]

theorem splitLines_cr_nil : splitLines ['\r'] = [[], []] := by
  simp [splitLines]

theorem splitLines_nl (t : List Char) :
    splitLines ('\n' :: t) = [] :: splitLines t := by
  cases t with
  | nil => simp [splitLines]
  | cons d t' => simp [splitLines]

theorem splitLines_other (c : Char) (t : List Char) (h1 : c ≠ '\r')
    (h2 : c ≠ '\n') :
    splitLines (c :: t) =
      (c :: (splitLines t).headI) :: (splitLines t).tail := by
  cases t with
  | nil => simp [splitLines, h1, h2]
  | cons d t' => simp [splitLines, h1, h2]

theorem splitLines_ne_nil (l : List Char) : splitLines l ≠ [] := by
  match l with
  | [] => simp [splitLines]
  | [c] =>
    simp only [splitLines]
    split <;> simp
  | a :: d :: t =>
    simp only [splitLines]
    split
    · simp
    · split <;> simp

theorem splitNL_nl (t : List Char) : splitNL ('\n' :: t) = [] :: splitNL t := by
  simp [splitNL]

theorem splitNL_other (c : Char) (t : List Char) (h : c ≠ '\n') :
    splitNL (c :: t) = (c :: (splitNL t).headI) :: (splitNL t).tail := by
  simp [splitNL, h]

theorem headI_append {S : List (List Char)} (h : S ≠ []) (X : List (List Char)) :
    (S ++ X).headI = S.headI := by
  cases S with
  | nil => exact absurd rfl h
  | cons a t => rfl

theorem tail_append {S : List (List Char)} (h : S ≠ []) (X : List (List Char)) :
    (S ++ X).tail = S.tail ++ X := by
  cases S with
  | nil => exact absurd rfl h
  | cons a t => rfl

theorem headI_cons_tail {S : List (List Char)} (h : S ≠ []) :
    S.headI :: S.tail = S := by
  cases S with
  | nil => exact absurd rfl h
  | cons a t => rfl

/-- `.strip().replace("\r\n", "\n").replace("\r", "\n")` followed by
`.split("\n")` computes exactly the universal-newline line structure. -/
theorem splitNL_norm (l : List Char) :
    splitNL (mapCR (replaceCRLF l)) = splitLines l := by
  induction l using splitLines.induct with
  | case1 => rfl
  | case2 c h =>
    rcases h with h | h <;> subst h <;> rfl
  | case3 c h1 =>
    have hc1 : c ≠ '\r' := fun h => h1 (Or.inl h)
    have hc2 : c ≠ '\n' := fun h => h1 (Or.inr h)
    have hr : replaceCRLF [c] = [c] := rfl
    rw [hr, show mapCR [c] = [c] from by simp [mapCR, hc1],
      splitNL_other c [] hc2, splitLines_other c [] hc1 hc2]
    rfl
  | case4 a d t h ih =>
    obtain ⟨ha, hd⟩ := h
    subst ha
    subst hd
    have hr : replaceCRLF ('\r' :: '\n' :: t) = '\n' :: replaceCRLF t := by
      simp [replaceCRLF]
    rw [hr, show mapCR ('\n' :: replaceCRLF t) = '\n' :: mapCR (replaceCRLF t)
      from by simp [mapCR], splitNL_nl, ih, splitLines_crlf]
  | case5 a d t h1 h2 ih =>
    have hr : replaceCRLF (a :: d :: t) = a :: replaceCRLF (d :: t) := by
      simp [replaceCRLF, h1]
    rw [hr]
    rcases h2 with h2 | h2 <;> subst h2
    · have hd : d ≠ '\n' := fun hd => h1 ⟨rfl, hd⟩
      rw [show mapCR ('\r' :: replaceCRLF (d :: t)) =
          '\n' :: mapCR (replaceCRLF (d :: t)) from by simp [mapCR],
        splitNL_nl, ih, splitLines_cr_cons d t hd]
    · rw [show mapCR ('\n' :: replaceCRLF (d :: t)) =
          '\n' :: mapCR (replaceCRLF (d :: t)) from by simp [mapCR],
        splitNL_nl, ih, splitLines_nl]
  | case6 a d t h1 h2 ih =>
    have ha1 : a ≠ '\r' := fun h => h2 (Or.inl h)
    have ha2 : a ≠ '\n' := fun h => h2 (Or.inr h)
    have hr : replaceCRLF (a :: d :: t) = a :: replaceCRLF (d :: t) := by
      simp [replaceCRLF, h1]
    rw [hr, show mapCR (a :: replaceCRLF (d :: t)) =
        a :: mapCR (replaceCRLF (d :: t)) from by simp [mapCR, ha1],
      splitNL_other a _ ha2, ih, splitLines_other a _ ha1 ha2]

/-! ## C9 machinery: stripping -/

theorem pyStripL_nil : pyStripL [] = [] := rfl

theorem pyStripL_cons_space {c : Char} (l : List Char)
    (h : isPySpace c = true) : pyStripL (c :: l) = pyStripL l := by
  simp only [pyStripL, trimLeft, List.dropWhile_cons, h, if_true]

theorem trimRight_append_space {c : Char} (l : List Char)
    (h : isPySpace c = true) : trimRight (l ++ [c]) = trimRight l := by
  simp only [trimRight, List.reverse_append, List.reverse_cons,
    List.reverse_nil, List.nil_append, List.singleton_append,
    List.dropWhile_cons, h, if_true]

theorem dropWhile_append_single {p : Char → Bool} (l : List Char) (c : Char) :
    (l ++ [c]).dropWhile p =
      if (l.dropWhile p).isEmpty then [c].dropWhile p
      else l.dropWhile p ++ [c] := by
  induction l with
  | nil => simp
  | cons x t ih =>
    by_cases hx : p x
    · simpa [List.dropWhile_cons, hx] using ih
    · simp [List.dropWhile_cons, hx]

theorem pyStripL_append_space {c : Char} (l : List Char)
    (h : isPySpace c = true) : pyStripL (l ++ [c]) = pyStripL l := by
  simp only [pyStripL, trimLeft, dropWhile_append_single]
  by_cases he : (l.dropWhile isPySpace).isEmpty
  · rw [if_pos he]
    rw [List.isEmpty_iff.mp he]
    simp [List.dropWhile_cons, h, trimRight]
  · rw [if_neg he]
    exact trimRight_append_space _ h

theorem pyStripL_all_space {l : List Char}
    (h : ∀ c ∈ l, isPySpace c = true) : pyStripL l = [] := by
  have : trimLeft l = [] := by
    simp only [trimLeft]
    induction l with
    | nil => rfl
    | cons c t ih =>
      rw [List.dropWhile_cons, if_pos (h c (List.mem_cons_self c t))]
      exact ih (fun x hx => h x (List.mem_cons_of_mem c hx))
  rw [pyStripL, this]
  rfl

/-! ## C9 machinery: invariance of the trimmed non-empty lines -/

theorem trimmedLines_nil : trimmedLines [] = [] := rfl

theorem trimmedLines_cons_space {c : Char} (l : List Char)
    (h : isPySpace c = true) : trimmedLines (c :: l) = trimmedLines l := by
  by_cases hc1 : c = '\r'
  · subst hc1
    cases l with
    | nil => rfl
    | cons d t =>
      by_cases hd : d = '\n'
      · subst hd
        simp only [trimmedLines, splitLines_crlf, splitLines_nl,
          List.map_cons, pyStripL_nil, List.filter_cons]
      · simp only [trimmedLines, splitLines_cr_cons d t hd, List.map_cons,
          pyStripL_nil, List.filter_cons]
        rfl
  · by_cases hc2 : c = '\n'
    · subst hc2
      simp only [trimmedLines, splitLines_nl, List.map_cons, pyStripL_nil,
        List.filter_cons]
      rfl
    · rw [trimmedLines, splitLines_other c l hc1 hc2]
      have hne := splitLines_ne_nil l
      calc (((c :: (splitLines l).headI) :: (splitLines l).tail).map
              pyStripL).filter (fun s => !s.isEmpty)
          = ((((splitLines l).headI :: (splitLines l).tail).map
              pyStripL).filter (fun s => !s.isEmpty)) := by
            simp only [List.map_cons, List.filter_cons,
              pyStripL_cons_space _ h]
        _ = trimmedLines l := by rw [headI_cons_tail hne, trimmedLines]

theorem trimmedLines_trimLeft (l : List Char) :
    trimmedLines (trimLeft l) = trimmedLines l := by
  induction l with
  | nil => rfl
  | cons c t ih =>
    by_cases hc : isPySpace c
    · rw [trimLeft, List.dropWhile_cons, if_pos hc]
      rw [show List.dropWhile isPySpace t = trimLeft t from rfl, ih]
      exact (trimmedLines_cons_space t hc).symm
    · rw [trimLeft, List.dropWhile_cons, if_neg hc]

/-! ## C9 machinery: appending a character at the end of the text -/

theorem splitLines_single_other (c : Char) (h1 : c ≠ '\r') (h2 : c ≠ '\n') :
    splitLines [c] = [[c]] := by
  rw [splitLines_other c [] h1 h2]
  rfl

/-- Appending a non-newline character extends the last line. -/
theorem splitLines_append_other {c : Char} (h1 : c ≠ '\r') (h2 : c ≠ '\n')
    (l : List Char) :
    ∃ I L, splitLines l = I ++ [L] ∧ splitLines (l ++ [c]) = I ++ [L ++ [c]] := by
  induction l using splitLines.induct with
  | case1 =>
    refine ⟨[], [], rfl, ?_⟩
    exact splitLines_single_other c h1 h2
  | case2 a h =>
    refine ⟨[[]], [], ?_, ?_⟩
    · rcases h with h | h <;> subst h <;> rfl
    · rcases h with h | h <;> subst h
      · rw [show (['\r'] ++ [c] : List Char) = '\r' :: [c] from rfl,
          splitLines_cr_cons c [] h2, splitLines_single_other c h1 h2]
        rfl
      · rw [show (['\n'] ++ [c] : List Char) = '\n' :: [c] from rfl,
          splitLines_nl, splitLines_single_other c h1 h2]
        rfl
  | case3 a h =>
    have ha1 : a ≠ '\r' := fun hx => h (Or.inl hx)
    have ha2 : a ≠ '\n' := fun hx => h (Or.inr hx)
    refine ⟨[], [a], ?_, ?_⟩
    · rw [splitLines_single_other a ha1 ha2]
      rfl
    · rw [show ([a] ++ [c] : List Char) = a :: [c] from rfl,
        splitLines_other a [c] ha1 ha2, splitLines_single_other c h1 h2]
      rfl
  | case4 a d t h ih =>
    obtain ⟨ha, hd⟩ := h
    subst ha
    subst hd
    obtain ⟨I, L, hI, hA⟩ := ih
    refine ⟨[] :: I, L, ?_, ?_⟩
    · rw [splitLines_crlf, hI, List.cons_append]
    · simp only [List.cons_append]
      rw [splitLines_crlf, hA]
  | case5 a d t h1' h2' ih =>
    obtain ⟨I, L, hI, hA⟩ := ih
    simp only [List.cons_append] at hA
    refine ⟨[] :: I, L, ?_, ?_⟩
    · rcases h2' with h2' | h2' <;> subst h2'
      · have hd : d ≠ '\n' := fun hx => h1' ⟨rfl, hx⟩
        rw [splitLines_cr_cons d t hd, hI, List.cons_append]
      · rw [splitLines_nl, hI, List.cons_append]
    · simp only [List.cons_append]
      rcases h2' with h2' | h2' <;> subst h2'
      · have hd : d ≠ '\n' := fun hx => h1' ⟨rfl, hx⟩
        rw [splitLines_cr_cons d (t ++ [c]) hd, hA]
      · rw [splitLines_nl, hA]
  | case6 a d t h1' h2' ih =>
    have ha1 : a ≠ '\r' := fun hx => h2' (Or.inl hx)
    have ha2 : a ≠ '\n' := fun hx => h2' (Or.inr hx)
    obtain ⟨I, L, hI, hA⟩ := ih
    simp only [List.cons_append] at hA
    cases I with
    | nil =>
      refine ⟨[], a :: L, ?_, ?_⟩
      · rw [splitLines_other a (d :: t) ha1 ha2, hI]
        rfl
      · simp only [List.cons_append]
        rw [splitLines_other a (d :: (t ++ [c])) ha1 ha2, hA]
        rfl
    | cons i0 I1 =>
      refine ⟨(a :: i0) :: I1, L, ?_, ?_⟩
      · rw [splitLines_other a (d :: t) ha1 ha2, hI]
        rfl
      · simp only [List.cons_append]
        rw [splitLines_other a (d :: (t ++ [c])) ha1 ha2, hA]
        rfl

/-- Appending `\r` always opens a fresh empty line. -/
theorem splitLines_append_cr (l : List Char) :
    splitLines (l ++ ['\r']) = splitLines l ++ [[]] := by
  induction l using splitLines.induct with
  | case1 => rfl
  | case2 a h =>
    rcases h with h | h <;> subst h <;> decide
  | case3 a h =>
    have ha1 : a ≠ '\r' := fun hx => h (Or.inl hx)
    have ha2 : a ≠ '\n' := fun hx => h (Or.inr hx)
    rw [List.singleton_append, splitLines_other a ['\r'] ha1 ha2,
      splitLines_cr_nil, splitLines_single_other a ha1 ha2]
    rfl
  | case4 a d t h ih =>
    obtain ⟨ha, hd⟩ := h
    subst ha
    subst hd
    simp only [List.cons_append]
    rw [splitLines_crlf, ih, splitLines_crlf, List.cons_append]
  | case5 a d t h1 h2 ih =>
    simp only [List.cons_append] at ih ⊢
    rcases h2 with h2 | h2 <;> subst h2
    · have hd : d ≠ '\n' := fun hx => h1 ⟨rfl, hx⟩
      rw [splitLines_cr_cons d (t ++ ['\r']) hd, ih,
        splitLines_cr_cons d t hd, List.cons_append]
    · rw [splitLines_nl, ih, splitLines_nl, List.cons_append]
  | case6 a d t h1 h2 ih =>
    have ha1 : a ≠ '\r' := fun hx => h2 (Or.inl hx)
    have ha2 : a ≠ '\n' := fun hx => h2 (Or.inr hx)
    have hne := splitLines_ne_nil (d :: t)
    simp only [List.cons_append] at ih ⊢
    rw [splitLines_other a (d :: (t ++ ['\r'])) ha1 ha2, ih,
      splitLines_other a (d :: t) ha1 ha2,
      headI_append hne, tail_append hne, List.cons_append]

/-- Whether the text ends with a carriage return (so that an appended `\n`
would merge into an existing `\r\n` boundary). -/
def endsCR : List Char → Bool
  | [] => false
  | [c] => c = '\r'
  | _ :: d :: t => endsCR (d :: t)

/-- Appending `\n` opens a fresh empty line unless the text ends in `\r`. -/
theorem splitLines_append_nl (l : List Char) :
    (endsCR l = true → splitLines (l ++ ['\n']) = splitLines l) ∧
    (endsCR l = false → splitLines (l ++ ['\n']) = splitLines l ++ [[]]) := by
  induction l using splitLines.induct with
  | case1 =>
    refine ⟨fun h => by simp [endsCR] at h, fun _ => by decide⟩
  | case2 a h =>
    rcases h with h | h <;> subst h
    · exact ⟨fun _ => by decide, fun h => by simp [endsCR] at h⟩
    · exact ⟨fun h => by simp [endsCR] at h, fun _ => by decide⟩
  | case3 a h =>
    have ha1 : a ≠ '\r' := fun hx => h (Or.inl hx)
    have ha2 : a ≠ '\n' := fun hx => h (Or.inr hx)
    refine ⟨fun hx => by simp [endsCR, ha1] at hx, fun _ => ?_⟩
    rw [List.singleton_append, splitLines_other a ['\n'] ha1 ha2,
      splitLines_nl, splitLines_single_other a ha1 ha2]
    rfl
  | case4 a d t h ih =>
    obtain ⟨ha, hd⟩ := h
    subst ha
    subst hd
    have hends : endsCR ('\r' :: '\n' :: t) = endsCR ('\n' :: t) := rfl
    cases t with
    | nil =>
      exact ⟨fun h => by simp [endsCR] at h, fun _ => by decide⟩
    | cons e t' =>
      have hends2 : endsCR ('\n' :: e :: t') = endsCR (e :: t') := rfl
      simp only [List.cons_append] at ih ⊢
      constructor
      · intro h
        rw [hends, hends2] at h
        rw [splitLines_crlf, ih.1 h, splitLines_crlf]
      · intro h
        rw [hends, hends2] at h
        rw [splitLines_crlf, ih.2 h, splitLines_crlf, List.cons_append]
  | case5 a d t h1 h2 ih =>
    have hends : endsCR (a :: d :: t) = endsCR (d :: t) := rfl
    simp only [List.cons_append] at ih ⊢
    rcases h2 with h2 | h2 <;> subst h2
    · have hd : d ≠ '\n' := fun hx => h1 ⟨rfl, hx⟩
      constructor
      · intro h
        rw [hends] at h
        rw [splitLines_cr_cons d (t ++ ['\n']) hd, ih.1 h,
          splitLines_cr_cons d t hd]
      · intro h
        rw [hends] at h
        rw [splitLines_cr_cons d (t ++ ['\n']) hd, ih.2 h,
          splitLines_cr_cons d t hd, List.cons_append]
    · constructor
      · intro h
        rw [hends] at h
        rw [splitLines_nl, ih.1 h, splitLines_nl]
      · intro h
        rw [hends] at h
        rw [splitLines_nl, ih.2 h, splitLines_nl, List.cons_append]
  | case6 a d t h1 h2 ih =>
    have ha1 : a ≠ '\r' := fun hx => h2 (Or.inl hx)
    have ha2 : a ≠ '\n' := fun hx => h2 (Or.inr hx)
    have hends : endsCR (a :: d :: t) = endsCR (d :: t) := rfl
    have hne := splitLines_ne_nil (d :: t)
    simp only [List.cons_append] at ih ⊢
    constructor
    · intro h
      rw [hends] at h
      rw [splitLines_other a (d :: (t ++ ['\n'])) ha1 ha2, ih.1 h,
        splitLines_other a (d :: t) ha1 ha2]
    · intro h
      rw [hends] at h
      rw [splitLines_other a (d :: (t ++ ['\n'])) ha1 ha2, ih.2 h,
        splitLines_other a (d :: t) ha1 ha2,
        headI_append hne, tail_append hne, List.cons_append]

theorem trimmedLines_append_space {c : Char} (l : List Char)
    (h : isPySpace c = true) : trimmedLines (l ++ [c]) = trimmedLines l := by
  by_cases hc1 : c = '\r'
  · subst hc1
    rw [trimmedLines, splitLines_append_cr, List.map_append, List.filter_append]
    simp [trimmedLines, pyStripL_nil]
  · by_cases hc2 : c = '\n'
    · subst hc2
      cases hends : endsCR l with
      | true => rw [trimmedLines, (splitLines_append_nl l).1 hends, trimmedLines]
      | false =>
        rw [trimmedLines, (splitLines_append_nl l).2 hends, List.map_append,
          List.filter_append]
        simp [trimmedLines, pyStripL_nil]
    · obtain ⟨I, L, hI, hA⟩ := splitLines_append_other hc1 hc2 l
      rw [trimmedLines, hA, List.map_append, List.filter_append, trimmedLines,
        hI, List.map_append, List.filter_append]
      simp only [List.map_cons, List.map_nil, List.filter_cons,
        pyStripL_append_space L h]

theorem trimmedLines_append_allspace (l ws : List Char)
    (h : ∀ c ∈ ws, isPySpace c = true) :
    trimmedLines (l ++ ws) = trimmedLines l := by
  induction ws using List.reverseRecOn with
  | nil => rw [List.append_nil]
  | append_singleton ws' c ih =>
    rw [← List.append_assoc]
    rw [trimmedLines_append_space (l ++ ws')
      (h c (by simp))]
    exact ih (fun x hx => h x (by simp [hx]))

theorem trimmedLines_trimRight (l : List Char) :
    trimmedLines (trimRight l) = trimmedLines l := by
  have hdec : l = trimRight l ++ (l.reverse.takeWhile isPySpace).reverse := by
    conv_lhs => rw [← List.reverse_reverse l,
      ← List.takeWhile_append_dropWhile (p := isPySpace) (l := l.reverse)]
    rw [List.reverse_append]
    rfl
  conv_rhs => rw [hdec]
  rw [trimmedLines_append_allspace]
  intro x hx
  rw [List.mem_reverse] at hx
  exact List.mem_takeWhile_imp hx

theorem trimmedLines_pyStrip (l : List Char) :
    trimmedLines (pyStripL l) = trimmedLines l := by
  rw [pyStripL, trimmedLines_trimRight, trimmedLines_trimLeft]

/-! ## C9 -/

theorem intercalate_ne_nil_of_ne (sep : List Char) (P : List (List Char))
    (hne : P ≠ []) (h : ∀ x ∈ P, x ≠ []) : List.intercalate sep P ≠ [] := by
  match P with
  | [] => exact absurd rfl hne
  | [p] =>
    rw [show List.intercalate sep [p] = p from by simp [List.intercalate]]
    exact h p (by simp)
  | p :: q :: r =>
    rw [show List.intercalate sep (p :: q :: r) =
        p ++ sep ++ List.intercalate sep (q :: r) from by
      simp [List.intercalate, List.intersperse]]
    intro hc
    have := congrArg List.length hc
    simp only [List.length_append, List.length_nil] at this
    have hp := h p (by simp)
    have : p.length = 0 := by omega
    exact hp (List.length_eq_zero.mp this)

/-- C9: for every companions input (absent, mixed `\r\n` / `\r` / `\n` line
endings, surrounding whitespace, blank lines), the resolved companions field
of `render_contract_text` equals the `", "`-join of the trimmed non-empty
lines of the input in original order, and `"-"` when no non-empty line
remains — `acompLine` (the code pipeline) coincides with
`specCompanionLine` (the specification's wording). -/
theorem spec_c9_companions (o : Option String) :
    acompLine o = specCompanionLine o := by
  have hparts : companionParts (o.getD "").data =
      trimmedLines (o.getD "").data := by
    rw [companionParts, splitNL_norm]
    exact trimmedLines_pyStrip _
  rw [acompLine, specCompanionLine]
  simp only [acompLineL, hparts]
  by_cases hP : trimmedLines (o.getD "").data = []
  · rw [hP]
    rfl
  · have helems : ∀ x ∈ trimmedLines (o.getD "").data, x ≠ [] := by
      intro x hx
      have hpred := (List.mem_filter.mp hx).2
      intro hxe
      subst hxe
      simp at hpred
    have hjoin : (List.intercalate ", ".data
        (trimmedLines (o.getD "").data)).isEmpty = false := by
      rw [Bool.eq_false_iff]
      intro h
      exact intercalate_ne_nil_of_ne _ _ hP helems (List.isEmpty_iff.mp h)
    have hPempty : (trimmedLines (o.getD "").data).isEmpty = false := by
      rw [Bool.eq_false_iff]
      intro h
      exact hP (List.isEmpty_iff.mp h)
    simp only [hjoin, hPempty, Bool.false_eq_true, if_false]

end CasaPraia
